import Mathlib

/-!
Shallow embedding of the Hive rule engine of the `chive` repository
(`src/hex.rs`, `src/hive.rs`, `src/pathfinding.rs`, `src/zobrist.rs`,
`src/engine/game.rs`, `src/engine/hex.rs`, `src/engine/hive.rs`).

Machine integers (`i32` coordinates, `u64` hash words) are modelled as
`Int` and `Nat`; coordinate arithmetic in the engine stays far away from
the `i32` range, and `u64` XOR never overflows, so no wrap-around
modelling is required.  Rust `HashMap`s are modelled as association
lists; the key-uniqueness that `HashMap` guarantees by construction is
expressed as the well-formedness predicate `Hive.wf` and assumed where a
proof needs it.  Rust iterators become Lean lists; iteration order of a
`HashMap` is unspecified in Rust, so the list order is an embedding
choice.  Panics (`panic!`, `unwrap`, `debug_assert!` — the engine
preconditions that §7 of the design document calls fatal) are modelled
by `Option`.
-/

namespace Chive

/-- Axial hex coordinate with stack height, from `engine/hex.rs`
(`pub struct Hex { q: i32, r: i32, h: i32 }`). -/
structure Hex where
  q : Int
  r : Int
  h : Int
deriving DecidableEq, Repr

/-- The derived third axis, `engine/hex.rs`: `fn s(&self) -> i32 { -self.q - self.r }`.
(The legacy `src/hex.rs` computes `q + r`; only `|s|` is ever consumed by
`flat_distance`, and `|q + r| = |-q - r|`, so the two files agree on every
quantity this development uses.) -/
def Hex.s (a : Hex) : Int := -a.q - a.r

/-- Component-wise addition (`impl ops::Add for Hex`). -/
def Hex.add (a b : Hex) : Hex := ⟨a.q + b.q, a.r + b.r, a.h + b.h⟩

/-- Component-wise subtraction (`impl ops::Sub for Hex`). -/
def Hex.sub (a b : Hex) : Hex := ⟨a.q - b.q, a.r - b.r, a.h - b.h⟩

instance : Add Hex := ⟨Hex.add⟩

instance : Sub Hex := ⟨Hex.sub⟩

/-- `fn base_level(&self) -> Hex { Hex { h: 0, ..*self } }`. -/
def Hex.base_level (a : Hex) : Hex := ⟨a.q, a.r, 0⟩

/-- `flat_distance` from `hex.rs`: `(|Δq| + |Δr| + |Δs|) / 2`, ignoring height. -/
def flat_distance (a b : Hex) : Nat :=
  ((a.q - b.q).natAbs + (a.r - b.r).natAbs + ((a.sub b).s).natAbs) / 2

/-- `is_adjacent` from `hex.rs`: flat distance exactly 1. -/
def is_adjacent (a b : Hex) : Bool := flat_distance a b = 1

/-- The six direction vectors, in the order of `Direction::iter()`
(`UpLeft, UpRight, Right, DownRight, DownLeft, Left`); the enum comment in
`hex.rs` insists this order goes around the circle. -/
def directionVectors : List Hex :=
  [⟨0, -1, 0⟩, ⟨1, -1, 0⟩, ⟨1, 0, 0⟩, ⟨0, 1, 0⟩, ⟨-1, 1, 0⟩, ⟨-1, 0, 0⟩]

/-- `neighbors` from `hex.rs`: the six surrounding cells at the same height. -/
def neighbors (hex : Hex) : List Hex := directionVectors.map (fun d => hex.add d)

/-- The eight bug kinds used by `engine/game.rs`.  The file `engine/bug.rs`
is not part of the sources; the variant set is fixed by its uses in
`engine/game.rs` and `DEFAULT_RESERVE`.  The discriminant order extends the
legacy `src/bug.rs` enum (`Ant, Beetle, Grasshopper, Queen, Spider`) with the
three expansion bugs; no theorem below depends on the order, only on the
discriminants being distinct. -/
inductive Bug where
  | Ant
  | Beetle
  | Grasshopper
  | Queen
  | Spider
  | Ladybug
  | Mosquito
  | Pillbug
deriving DecidableEq, Repr

/-- Discriminant of a bug (`tile.bug as usize` in `zobrist.rs`). -/
def Bug.index : Bug → Nat
  | .Ant => 0
  | .Beetle => 1
  | .Grasshopper => 2
  | .Queen => 3
  | .Spider => 4
  | .Ladybug => 5
  | .Mosquito => 6
  | .Pillbug => 7

/-- `Bug::COUNT` for the engine's eight-variant enum. -/
def bugCount : Nat := 8

/-- Piece colors, from `hive.rs`. -/
inductive Color where
  | Black
  | White
deriving DecidableEq, Repr

/-- `Color::opposite`. -/
def Color.opposite : Color → Color
  | .Black => .White
  | .White => .Black

/-- A tile is a bug of a color, from `hive.rs`. -/
structure Tile where
  bug : Bug
  color : Color
deriving DecidableEq, Repr

/-- The board: a map from `Hex` to `Tile`, from `hive.rs`.  The Rust
`HashMap` is embedded as an association list. -/
structure Hive where
  map : List (Hex × Tile)
deriving DecidableEq, Repr

/-- Key uniqueness, which the Rust `HashMap` maintains by construction. -/
def Hive.wf (hive : Hive) : Prop := (hive.map.map Prod.fst).Nodup

/-- `Hive::is_occupied`: `self.map.contains_key(hex)`. -/
def Hive.is_occupied (hive : Hive) (hex : Hex) : Bool :=
  hive.map.any (fun e => decide (e.1 = hex))

/-- `Hive::tile_at` (`self.map.get(hex)`), also the `map.get` used by
`mosquito_moves`. -/
def Hive.tile_at (hive : Hive) (hex : Hex) : Option Tile :=
  (hive.map.find? (fun e => decide (e.1 = hex))).map Prod.snd

/-- One step of the `stack_height` climb: the smallest `k ≥ h` that is
unoccupied in the column of `hex`, searched with explicit fuel. -/
def stackHeightAux (hive : Hive) (hex : Hex) : Nat → Int → Int
  | 0, height => height
  | fuel + 1, height =>
    if hive.is_occupied ⟨hex.q, hex.r, height⟩ then
      stackHeightAux hive hex fuel (height + 1)
    else
      height

/-- `Hive::stack_height`: climb from `h = 0` until the first unoccupied
cell.  The Rust `while` loop runs at most `map.len()` times, because each
iteration witnesses a distinct occupied key in the column; fuel
`map.length + 1` therefore never runs out and the result is always the
first unoccupied height. -/
def Hive.stack_height (hive : Hive) (hex : Hex) : Int :=
  stackHeightAux hive hex (hive.map.length + 1) 0

/-- `Hive::topmost_occupied_hex`. -/
def Hive.topmost_occupied_hex (hive : Hive) (hex : Hex) : Option Hex :=
  let stack_height := hive.stack_height hex
  if stack_height > 0 then some ⟨hex.q, hex.r, stack_height - 1⟩ else none

/-- `Hive::toplevel_pieces`: the entries that are the top of their column. -/
def Hive.toplevel_pieces (hive : Hive) : List (Hex × Tile) :=
  hive.map.filter (fun e => decide (hive.stack_height e.1 - 1 = e.1.h))

/-- `Hive::neighbors_at_same_level`. -/
def Hive.neighbors_at_same_level (_hive : Hive) (hex : Hex) : List Hex :=
  neighbors hex

/-- `Hive::occupied_neighbors_at_same_level`. -/
def Hive.occupied_neighbors_at_same_level (hive : Hive) (hex : Hex) : List Hex :=
  (neighbors hex).filter (fun n => hive.is_occupied n)

/-- `Hive::topmost_occupied_neighbors`. -/
def Hive.topmost_occupied_neighbors (hive : Hive) (hex : Hex) : List Hex :=
  (neighbors hex).filterMap (fun n => hive.topmost_occupied_hex n)

/-- `Hive::unoccupied_neighbors`. -/
def Hive.unoccupied_neighbors (hive : Hive) (hex : Hex) : List Hex :=
  (neighbors hex).filter (fun n => !hive.is_occupied n)

/-- Fuelled walk for `next_unoccupied_spot_in_direction`. -/
def nextUnoccupiedAux (hive : Hive) (direction : Hex) : Nat → Hex → Hex
  | 0, current => current
  | fuel + 1, current =>
    if hive.is_occupied current then
      nextUnoccupiedAux hive direction fuel (current.add direction)
    else
      current

/-- `Hive::next_unoccupied_spot_in_direction`: advance by `direction`
while occupied.  Every caller passes a nonzero direction, so the walk
visits pairwise distinct cells and stops after at most `map.len()`
occupied ones; fuel `map.length + 1` never runs out. -/
def Hive.next_unoccupied_spot_in_direction (hive : Hive) (hex direction : Hex) : Hex :=
  nextUnoccupiedAux hive direction (hive.map.length + 1) hex

/-- Map insertion (`HashMap::insert`): replace the binding if the key is
present, otherwise add a fresh entry. -/
def Hive.insert (hive : Hive) (hex : Hex) (tile : Tile) : Hive :=
  if hive.is_occupied hex then
    ⟨hive.map.map (fun e => if e.1 = hex then (hex, tile) else e)⟩
  else
    ⟨(hex, tile) :: hive.map⟩

/-- Map removal (`HashMap::remove`): drop the binding of the key.  On a
well-formed map at most one entry matches, so the filter removes exactly
the entry the Rust `remove` does. -/
def Hive.removeKey (hive : Hive) (hex : Hex) : Hive :=
  ⟨hive.map.filter (fun e => decide (e.1 ≠ hex))⟩

/-- Fuelled worker for `uniqueList`; filtering only shrinks the tail, so
fuel equal to the list length is always enough. -/
def uniqueListAux {α : Type} [DecidableEq α] : Nat → List α → List α
  | 0, _ => []
  | _, [] => []
  | fuel + 1, a :: rest => a :: uniqueListAux fuel (rest.filter (fun b => decide (b ≠ a)))

/-- Deduplicate a list keeping the first occurrence of each element, the
semantics of collecting into a Rust hash set (and of itertools `unique`). -/
def uniqueList {α : Type} [DecidableEq α] (l : List α) : List α :=
  uniqueListAux l.length l

/-- Pop a minimum-priority element, preferring the earliest on ties.  This
models `BinaryHeap::pop` under the inverted `PathLocation` ordering of
`pathfinding.rs` (the heap is a min-heap on `priority`); the heap's
tie-breaking is unspecified, so taking the first minimal entry is a valid
refinement of it. -/
def popMin : List (Hex × Nat) → Option ((Hex × Nat) × List (Hex × Nat))
  | [] => none
  | x :: xs =>
    match popMin xs with
    | none => some (x, [])
    | some (y, rest) => if x.2 ≤ y.2 then some (x, xs) else some (y, x :: rest)

/-- The success test of the inner loop of `move_would_disconnect_piece`:
the popped cell is the destination's ground cell, or flat-adjacent to it,
or already known to be connected. -/
def searchHit (endHex : Hex) (conn : List Hex) (cur : Hex) : Bool :=
  decide (cur = endHex) || is_adjacent cur endHex || decide (cur ∈ conn)

/-- The `while !frontier.is_empty()` loop of `move_would_disconnect_piece`,
with explicit fuel.  Returns `(true, seen)` when the frontier empties
without a hit (`Ok(true)` in the source) and `(false, seen)` on a hit
(`Ok(false)`; the caller then merges `seen` into `connected_pieces`).
Each iteration pops one entry and pushes only cells it freshly adds to
`hexes_seen`; `seen` stays inside the hive's key set, so the loop runs at
most `map.length + 1` times and the fuel of `move_would_disconnect_piece`
never reaches 0. -/
def searchLoop (hive : Hive) (endHex : Hex) (avoid : Option Hex) (conn : List Hex) :
    Nat → List (Hex × Nat) → List Hex → Bool × List Hex
  | 0, _, seen => (true, seen)
  | fuel + 1, frontier, seen =>
    match popMin frontier with
    | none => (true, seen)
    | some (cur, rest) =>
      if searchHit endHex conn cur.1 then (false, seen)
      else
        let nexts := (hive.occupied_neighbors_at_same_level cur.1).filter
          (fun n => decide ((some n : Option Hex) ≠ avoid) && decide (n ∉ seen))
        searchLoop hive endHex avoid conn fuel
          (rest ++ nexts.map (fun n => (n, flat_distance n endHex))) (seen ++ nexts)

/-- `move_would_disconnect_piece` from `pathfinding.rs`: best-first search
from `affected` through occupied same-level cells (avoiding `fromHex` when
it sits on the ground) for the ground cell under `toHex`, its flat
neighbourhood, or the accumulated `connected_pieces`.  The `Err` branch for
an unoccupied `affected` is immediately `unwrap`ped by the only caller,
which always passes occupied neighbours, so it is modelled as an inert
`(true, conn)` result. -/
def move_would_disconnect_piece (hive : Hive) (fromHex toHex affected : Hex)
    (conn : List Hex) : Bool × List Hex :=
  if ¬ hive.is_occupied affected then (true, conn)
  else
    let avoid : Option Hex := if fromHex.h = 0 then some fromHex else none
    let endHex := toHex.base_level
    match searchLoop hive endHex avoid conn (hive.map.length + 1) [(affected, 0)] [affected] with
    | (true, _) => (true, conn)
    | (false, seen) => (false, conn ++ seen.filter (fun s => decide (s ∉ conn)))

/-- The `for hex in hive.occupied_neighbors_at_same_level(from)` loop of
`move_would_break_hive`, threading the shared `connected_pieces` scratch
set through the sibling searches. -/
def breakHiveLoop (hive : Hive) (fromHex toHex : Hex) : List Hex → List Hex → Bool
  | [], _ => false
  | n :: rest, conn =>
    match move_would_disconnect_piece hive fromHex toHex n conn with
    | (true, _) => true
    | (false, conn') => breakHiveLoop hive fromHex toHex rest conn'

/-- `move_would_break_hive` from `pathfinding.rs`. -/
def move_would_break_hive (hive : Hive) (fromHex toHex : Hex) : Bool :=
  let is_slide := fromHex.h = 0 ∧ toHex.h = 0 ∧ is_adjacent fromHex toHex = true
  if is_slide ∧
      ¬ ((hive.occupied_neighbors_at_same_level fromHex).any fun n => is_adjacent n toHex) then
    true
  else
    breakHiveLoop hive fromHex toHex (hive.occupied_neighbors_at_same_level fromHex) []

/-- `MIN_HEIGHT` from `zobrist.rs`. -/
def MIN_HEIGHT : Nat := 0

/-- `MAX_HEIGHT` from `zobrist.rs`. -/
def MAX_HEIGHT : Nat := 5

/-- `MIN_AXIS_VALUE` from `zobrist.rs`. -/
def MIN_AXIS_VALUE : Int := -21

/-- `MAX_AXIS_VALUE` from `zobrist.rs`. -/
def MAX_AXIS_VALUE : Int := 21

/-- `AXIS_ARRAY_SIZE = (MAX_AXIS_VALUE - MIN_AXIS_VALUE) as usize`, i.e. 42. -/
def AXIS_ARRAY_SIZE : Nat := (MAX_AXIS_VALUE - MIN_AXIS_VALUE).toNat

/-- `HEIGHT_ARRAY_SIZE = MAX_HEIGHT - MIN_HEIGHT`, i.e. 5. -/
def HEIGHT_ARRAY_SIZE : Nat := MAX_HEIGHT - MIN_HEIGHT

/-- `TILE_INDEX_COUNT = Bug::COUNT * 2`. -/
def TILE_INDEX_COUNT : Nat := bugCount * 2

/-- `impl From<&Tile> for TileIndex` in `zobrist.rs`: the bug discriminant,
shifted by `Bug::COUNT` for black tiles. -/
def tileIndex (tile : Tile) : Nat :=
  if tile.color = Color.Black then tile.bug.index + bugCount else tile.bug.index

/-- The axis-index computation of `ZobristTable::table_value`:
`q as usize + AXIS_ARRAY_SIZE / 2` for non-negative `q`, else
`q.unsigned_abs() as usize`. -/
def axisIndex (v : Int) : Nat :=
  if v ≥ 0 then v.toNat + AXIS_ARRAY_SIZE / 2 else v.natAbs

/-- Whether `ZobristTable::table_value` indexes its 4-D array in bounds at
`hex` (the tile dimension is always in bounds, see
`tileIndex_lt_count`).  `hex.h as usize` wraps a negative `i32` far past
the array, hence the `0 ≤ h` conjunct. -/
def tableIndexOk (hex : Hex) : Bool :=
  decide (0 ≤ hex.h) && decide (hex.h.toNat < HEIGHT_ARRAY_SIZE) &&
    decide (axisIndex hex.q < AXIS_ARRAY_SIZE) && decide (axisIndex hex.r < AXIS_ARRAY_SIZE)

/-- The process-wide Zobrist table of `zobrist.rs`: the 4-D array of random
64-bit words is modelled as a total function of the four indices, and the
side-to-move word as a plain value.  Randomness plays no role in the claims,
so the table is a parameter of every hash computation. -/
structure ZobristTable where
  piece_table : Nat → Nat → Nat → Nat → Nat
  black_to_move : Nat

/-- `ZobristTable::table_value`: look up the word for a tile at a hex using
the index computations above. -/
def ZobristTable.table_value (tbl : ZobristTable) (hex : Hex) (tile : Tile) : Nat :=
  tbl.piece_table (tileIndex tile) hex.h.toNat (axisIndex hex.q) (axisIndex hex.r)

/-- `ZobristTable::hash`: start from the side-to-move word if Black is to
move, then XOR the table word of every tile on the board. -/
def ZobristTable.hash (tbl : ZobristTable) (hive : Hive) (active_player : Color) : Nat :=
  hive.map.foldl (fun acc e => acc ^^^ tbl.table_value e.1 e.2)
    (if active_player = Color.Black then tbl.black_to_move else 0)

/-- A turn, from `engine/game.rs`. -/
inductive Turn where
  | Placement (hex : Hex) (tile : Tile)
  | Move (fromHex toHex : Hex) (freezes_piece : Bool)
  | Skip
deriving DecidableEq, Repr

/-- The game state, from `engine/game.rs`.  The `zobrist_table` field (a
reference to the process-wide singleton) is not stored; the table is
passed explicitly to the operations that read it. -/
structure Game where
  hive : Hive
  white_reserve : List Bug
  black_reserve : List Bug
  active_player : Color
  immobilized_piece : Option Hex
  last_turn : Option Turn
  zobrist_hash : Nat
deriving DecidableEq, Repr

/-- `Game::active_reserve`. -/
def Game.active_reserve (g : Game) : List Bug :=
  match g.active_player with
  | Color.Black => g.black_reserve
  | Color.White => g.white_reserve

/-- `Game::slide_is_allowed`: the freedom-to-move shoulder rule.  The
source first asserts `from.h == to.h`; the computation below never reads
the heights, so the assertion is a pure caller obligation and the function
is modelled total. -/
def Game.slide_is_allowed (g : Game) (fromHex toHex : Hex) : Bool :=
  let mov := toHex.sub fromHex
  let counter_clockwise_neighbor := fromHex.add ⟨-mov.s, -mov.q, 0⟩
  let clockwise_neighbor := fromHex.add ⟨-mov.r, -mov.s, 0⟩
  !g.hive.is_occupied clockwise_neighbor || !g.hive.is_occupied counter_clockwise_neighbor

/-- One iteration (for `i ≥ 1`) of the ring scan of `Game::allowed_slides`:
state is `(empty_seen, previous_added, acc)`, `prev` is `neighbors[i-1]`
and `cur` is `neighbors[i]`. -/
def ringStep (occC : Hex → Bool) (prev cur : Hex) :
    Nat × Bool × List Hex → Nat × Bool × List Hex
  | (empty_seen, previous_added, acc) =>
    if occC cur then (0, previous_added, acc)
    else if empty_seen > 0 then
      (empty_seen + 1, true, acc ++ [cur] ++ (if previous_added then [] else [prev]))
    else (empty_seen + 1, false, acc)

/-- `Game::allowed_slides`: the ring scan over the six neighbours followed
by the wrap-around fix-up for the `first`/`last` pair.  A cell equal to
`ignore_hex` is treated as unoccupied during the scan (but not in the
wrap-around block, which tests raw occupancy, exactly as the source
does). -/
def Game.allowed_slides (g : Game) (hex : Hex) (ignore_hex : Option Hex) : List Hex :=
  match g.hive.neighbors_at_same_level hex with
  | [n0, n1, n2, n3, n4, n5] =>
    match ringStep (fun n => g.hive.is_occupied n && decide ((some n : Option Hex) ≠ ignore_hex))
        n4 n5
        (ringStep (fun n => g.hive.is_occupied n && decide ((some n : Option Hex) ≠ ignore_hex))
          n3 n4
          (ringStep (fun n => g.hive.is_occupied n && decide ((some n : Option Hex) ≠ ignore_hex))
            n2 n3
            (ringStep
              (fun n => g.hive.is_occupied n && decide ((some n : Option Hex) ≠ ignore_hex))
              n1 n2
              (ringStep
                (fun n => g.hive.is_occupied n && decide ((some n : Option Hex) ≠ ignore_hex))
                n0 n1
                (if g.hive.is_occupied n0 && decide ((some n0 : Option Hex) ≠ ignore_hex) then
                  (0, false, [])
                else (1, false, [])))))) with
    | (_, previous_added, acc) =>
      if !g.hive.is_occupied n0 && !g.hive.is_occupied n5 then
        (acc ++ (if previous_added then [] else [n5])) ++
          (if g.hive.is_occupied n1 then [n0] else [])
      else acc
  | _ => []

/-- `Game::slide_would_separate_self_from_hive`: no occupied same-level
neighbour of `fromHex` other than `ignore_hex` is adjacent to `toHex`. -/
def Game.slide_would_separate_self_from_hive (g : Game) (fromHex toHex ignore_hex : Hex) :
    Bool :=
  !((g.hive.occupied_neighbors_at_same_level fromHex).any fun neighbor =>
    decide (neighbor ≠ ignore_hex) && is_adjacent neighbor toHex)

/-- `Game::queen_moves`: single slides that keep the hive whole. -/
def Game.queen_moves (g : Game) (fromHex : Hex) : List Turn :=
  if g.immobilized_piece = some fromHex then []
  else
    ((g.allowed_slides fromHex (some fromHex)).filter
        (fun possible => !move_would_break_hive g.hive fromHex possible)).map
      (fun t => Turn.Move fromHex t false)

/-- `Game::beetle_moves`: step to any neighbour column's top, checking the
shoulder rule at `max(from.h, to_height)`. -/
def Game.beetle_moves (g : Game) (fromHex : Hex) : List Turn :=
  if g.immobilized_piece = some fromHex then []
  else
    (((neighbors fromHex).filterMap fun neighbor =>
        let to_height := g.hive.stack_height neighbor
        let slide_check_height := max fromHex.h to_height
        if g.slide_is_allowed ⟨fromHex.q, fromHex.r, slide_check_height⟩
            ⟨neighbor.q, neighbor.r, slide_check_height⟩ then
          some (⟨neighbor.q, neighbor.r, to_height⟩ : Hex)
        else none).filter
      (fun possible => !move_would_break_hive g.hive fromHex possible)).map
      (fun t => Turn.Move fromHex t false)

/-- `Game::grasshopper_moves`: one hive-break check against the synthetic
destination `{h: 100, ..from}`, then a jump over each occupied neighbour
to the first unoccupied cell in its direction. -/
def Game.grasshopper_moves (g : Game) (fromHex : Hex) : List Turn :=
  if move_would_break_hive g.hive fromHex ⟨fromHex.q, fromHex.r, 100⟩ then []
  else
    ((g.hive.occupied_neighbors_at_same_level fromHex).map fun neighbor =>
      g.hive.next_unoccupied_spot_in_direction fromHex (neighbor.sub fromHex)).map
      (fun t => Turn.Move fromHex t false)

/-- One path-extension round of `Game::spider_moves`.  Paths are stored
most-recent-first, so the source's `path.last()` is the list head. -/
def spiderStep (g : Game) (fromHex : Hex) (first_move : Bool) (paths : List (List Hex)) :
    List (List Hex) :=
  paths.flatMap fun path =>
    match path with
    | [] => []
    | current :: _ =>
      (g.allowed_slides current (some fromHex)).filterMap fun dest =>
        if dest ∈ path then none
        else if (first_move && move_would_break_hive g.hive current dest) ||
            (!first_move && g.slide_would_separate_self_from_hive current dest fromHex) then
          none
        else some (dest :: path)

/-- `Game::spider_moves`: exactly three slides, global hive check on the
first step and the local separation check on the later ones, collecting
the distinct endpoints. -/
def Game.spider_moves (g : Game) (fromHex : Hex) : List Turn :=
  if g.immobilized_piece = some fromHex then []
  else
    let paths := spiderStep g fromHex false (spiderStep g fromHex false
      (spiderStep g fromHex true [[fromHex]]))
    (uniqueList ((paths.filter (fun p => p.length = 4)).filterMap List.head?)).map
      (fun t => Turn.Move fromHex t false)

/-- One climbing round of `Game::ladybug_moves` (steps 1 and 2): move onto
the top of a neighbouring column, never back over the origin column, with
the shoulder rule at the climb height and — on the first step only — the
global hive check. -/
def ladybugClimbStep (g : Game) (fromHex : Hex) (first_move : Bool)
    (paths : List (List Hex)) : List (List Hex) :=
  paths.flatMap fun path =>
    match path with
    | [] => []
    | current :: _ =>
      ((((g.hive.topmost_occupied_neighbors current).map fun dest =>
          (⟨dest.q, dest.r, dest.h + 1⟩ : Hex)).filter
          (fun dest => decide (dest.base_level ≠ fromHex))).filter
          (fun dest => g.slide_is_allowed ⟨current.q, current.r, dest.h⟩ dest)).filterMap
        fun dest =>
          if first_move && move_would_break_hive g.hive fromHex dest then none
          else some (dest :: path)

/-- The descending round of `Game::ladybug_moves` (step 3): drop to an
unoccupied ground neighbour, shoulder rule at the current height. -/
def ladybugDownStep (g : Game) (paths : List (List Hex)) : List (List Hex) :=
  paths.flatMap fun path =>
    match path with
    | [] => []
    | current :: _ =>
      ((g.hive.unoccupied_neighbors current.base_level).filter
          (fun dest => g.slide_is_allowed current ⟨dest.q, dest.r, current.h⟩)).map
        (fun dest => dest :: path)

/-- `Game::ladybug_moves`: two climbs then one descent, collecting the
distinct endpoints of the complete paths. -/
def Game.ladybug_moves (g : Game) (fromHex : Hex) : List Turn :=
  if g.immobilized_piece = some fromHex then []
  else
    let paths := ladybugDownStep g (ladybugClimbStep g fromHex false
      (ladybugClimbStep g fromHex true [[fromHex]]))
    (uniqueList ((paths.filter (fun p => p.length = 4)).filterMap List.head?)).map
      (fun t => Turn.Move fromHex t false)

/-- The frontier loop of `Game::ant_moves`, with explicit fuel.  The Rust
`Vec` is popped from its tail, so the stack is stored most-recent-first.
Every cell ever inserted into `allowed` is either a neighbour of `fromHex`
(first iteration) or, by the separation check, adjacent to some occupied
cell; at most `6 * map.length + 6` cells can ever be inserted, each
iteration pops one stack entry, and entries are pushed only when freshly
inserted, so `6 * map.length + 8` fuel never runs out. -/
def antLoop (g : Game) (fromHex : Hex) : Nat → List Hex → List Hex → Bool → List Hex
  | 0, allowed, _, _ => allowed
  | fuel + 1, allowed, stack, first_move =>
    match stack with
    | [] => allowed
    | current :: rest =>
      let st := (g.allowed_slides current (some fromHex)).foldl
        (fun (st : List Hex × List Hex) dest =>
          if decide (dest ∈ st.1) || decide (fromHex = dest) then st
          else if (first_move && move_would_break_hive g.hive current dest) ||
              (!first_move && g.slide_would_separate_self_from_hive current dest fromHex) then
            st
          else (st.1 ++ [dest], dest :: st.2))
        (allowed, rest)
      antLoop g fromHex fuel st.1 st.2 false

/-- `Game::ant_moves`: the slide closure from `fromHex`. -/
def Game.ant_moves (g : Game) (fromHex : Hex) : List Turn :=
  if g.immobilized_piece = some fromHex then []
  else
    (antLoop g fromHex (6 * g.hive.map.length + 8) [] [fromHex] true).map
      (fun t => Turn.Move fromHex t false)

/-- `Game::pillbug_moves`: queen-style direct moves (suppressed while
immobilized) plus the throw ability, which moves a ground-level neighbour
(except the piece moved on the previous turn) over the pillbug into an
empty neighbour, checking both half-slides at `h = 1` and the hive
check on the lift. -/
def Game.pillbug_moves (g : Game) (pillbug_hex : Hex) : List Turn :=
  let direct_moves :=
    if g.immobilized_piece = some pillbug_hex then [] else g.queen_moves pillbug_hex
  let free_spaces := g.hive.unoccupied_neighbors pillbug_hex
  let above_pillbug : Hex := ⟨pillbug_hex.q, pillbug_hex.r, 1⟩
  let piece_moved_last_turn : Option Hex :=
    match g.last_turn with
    | some (Turn.Move _ t _) => some t
    | _ => none
  let special_ability_moves :=
    (g.hive.topmost_occupied_neighbors pillbug_hex).flatMap fun neighbor =>
      if neighbor.h ≠ 0 then []
      else if some neighbor = piece_moved_last_turn then []
      else if !g.slide_is_allowed ⟨neighbor.q, neighbor.r, 1⟩ above_pillbug then []
      else if move_would_break_hive g.hive neighbor above_pillbug then []
      else
        free_spaces.filterMap fun free_space =>
          if !g.slide_is_allowed above_pillbug ⟨free_space.q, free_space.r, 1⟩ then none
          else some (Turn.Move neighbor free_space true)
  direct_moves ++ special_ability_moves

/-- The non-mosquito dispatch of `Game::moves_for_tile`.  In the source
`moves_for_tile` and `mosquito_moves` are mutually recursive, but
`mosquito_moves` filters `Bug::Mosquito` out of the bugs it copies before
dispatching, so the mosquito branch is never taken from there; splitting
the dispatch makes that termination argument structural.  The `Mosquito`
row of this base dispatch is therefore dead and returns `[]`. -/
def Game.moves_for_tile_base (g : Game) (bug : Bug) (hex : Hex) : List Turn :=
  match bug with
  | Bug.Beetle => g.beetle_moves hex
  | Bug.Queen => g.queen_moves hex
  | Bug.Grasshopper => g.grasshopper_moves hex
  | Bug.Ant => g.ant_moves hex
  | Bug.Spider => g.spider_moves hex
  | Bug.Ladybug => g.ladybug_moves hex
  | Bug.Mosquito => []
  | Bug.Pillbug => g.pillbug_moves hex

/-- `Game::mosquito_moves`: copy each distinct non-mosquito bug among the
topmost occupied neighbours (only the pillbug when immobilized), taking
the union of the produced turns.  The `.unwrap()` on the map lookup cannot
fail because the hexes come from `topmost_occupied_neighbors`; the
`FxHashSet<Turn>` union is modelled by `uniqueList`. -/
def Game.mosquito_moves (g : Game) (start : Hex) : List Turn :=
  let immobilized : Bool := decide (g.immobilized_piece = some start)
  let adjacent_bugs :=
    (((g.hive.topmost_occupied_neighbors start).filterMap
        (fun hx => (g.hive.tile_at hx).map Tile.bug)).filter
        (fun bug => decide (bug ≠ Bug.Mosquito))).filter
      (fun bug => !immobilized || decide (bug = Bug.Pillbug))
  uniqueList (adjacent_bugs.flatMap fun bug => g.moves_for_tile_base bug start)

/-- `Game::moves_for_tile`: dispatch on the bug kind. -/
def Game.moves_for_tile (g : Game) (bug : Bug) (hex : Hex) : List Turn :=
  match bug with
  | Bug.Mosquito => g.mosquito_moves hex
  | b => g.moves_for_tile_base b hex

/-- `Game::is_adjacent_to_color`: some topmost occupied neighbour holds a
tile of the given color. -/
def Game.is_adjacent_to_color (g : Game) (hex : Hex) (color : Color) : Bool :=
  (g.hive.topmost_occupied_neighbors hex).any fun adjacent_hex =>
    match g.hive.tile_at adjacent_hex with
    | some tile => decide (tile.color = color)
    | none => false

/-- `Game::placements`: the four-way branch on reserve and hive size.  The
`placement_allowed` hash map of the source memoizes the pure
`is_adjacent_to_color` predicate and changes no results, so it is not
modelled. -/
def Game.placements (g : Game) (active_player_reserve : List Bug) : List Turn :=
  if active_player_reserve.isEmpty then []
  else if g.hive.map.isEmpty then
    (uniqueList (active_player_reserve.filter (fun bug => decide (bug ≠ Bug.Queen)))).map
      (fun bug => Turn.Placement ⟨0, 0, 0⟩ ⟨bug, g.active_player⟩)
  else if g.hive.map.length = 1 then
    match g.hive.map with
    | [] => []
    | (only_occupied_hex, _) :: _ =>
      (active_player_reserve.filter (fun bug => decide (bug ≠ Bug.Queen))).flatMap fun bug =>
        (neighbors only_occupied_hex).map fun hx => Turn.Placement hx ⟨bug, g.active_player⟩
  else
    let is_turn_four := active_player_reserve.length ≤ 14 - 3
    let reserve :=
      if is_turn_four ∧ Bug.Queen ∈ active_player_reserve then [Bug.Queen]
      else active_player_reserve
    g.hive.map.flatMap fun e =>
      if e.2.color = g.active_player then
        (g.hive.unoccupied_neighbors e.1.base_level).flatMap fun neighbor =>
          if !g.is_adjacent_to_color neighbor g.active_player.opposite then
            reserve.map fun bug => Turn.Placement neighbor ⟨bug, g.active_player⟩
          else []
      else []

/-- `Game::moves`: nothing while the queen is in reserve; otherwise every
tile-specific generator applied to the active player's top-level pieces. -/
def Game.moves (g : Game) : List Turn :=
  if Bug.Queen ∈ g.active_reserve then []
  else
    (g.hive.toplevel_pieces.filter (fun e => decide (e.2.color = g.active_player))).flatMap
      fun e => g.moves_for_tile e.2.bug e.1

/-- `Game::turns`: placements then moves, or the lone `Skip` when both are
empty. -/
def Game.turns (g : Game) : List Turn :=
  let ts := g.placements g.active_reserve ++ g.moves
  if ts.isEmpty then [Turn.Skip] else ts

/-- `Game::with_turn_applied`, from `engine/game.rs`.  The `panic!`s of the
placement arm and the `debug_assert!`/`unwrap` preconditions of the move
arm (the fatal engine preconditions of §7 of the design document) are
modelled as `none`. -/
def Game.with_turn_applied (tbl : ZobristTable) (g : Game) (turn : Turn) : Option Game :=
  match turn with
  | Turn.Placement hex tile =>
    if tile.color ≠ g.active_player then none
    else
      match g.active_reserve.findIdx? (fun bug => decide (bug = tile.bug)) with
      | none => none
      | some index =>
        if g.hive.is_occupied hex then none
        else
          let new_reserve := g.active_reserve.eraseIdx index
          some
            { hive := g.hive.insert hex tile
              white_reserve :=
                if g.active_player = Color.White then new_reserve else g.white_reserve
              black_reserve :=
                if g.active_player = Color.White then g.black_reserve else new_reserve
              active_player := g.active_player.opposite
              immobilized_piece := none
              last_turn := some turn
              zobrist_hash :=
                (g.zobrist_hash ^^^ tbl.table_value hex tile) ^^^ tbl.black_to_move }
  | Turn.Move fromHex toHex freezes_piece =>
    if ¬ g.hive.is_occupied fromHex then none
    else if g.hive.is_occupied toHex then none
    else
      match g.hive.tile_at fromHex with
      | none => none
      | some tile =>
        if ¬ (tile.color = g.active_player ∨ freezes_piece = true) then none
        else
          some
            { hive := (g.hive.removeKey fromHex).insert toHex tile
              white_reserve := g.white_reserve
              black_reserve := g.black_reserve
              active_player := g.active_player.opposite
              immobilized_piece := if freezes_piece then some toHex else none
              last_turn := some turn
              zobrist_hash :=
                ((g.zobrist_hash ^^^ tbl.table_value fromHex tile) ^^^
                  tbl.table_value toHex tile) ^^^ tbl.black_to_move }
  | Turn.Skip =>
    some
      { hive := g.hive
        white_reserve := g.white_reserve
        black_reserve := g.black_reserve
        active_player := g.active_player.opposite
        immobilized_piece := none
        last_turn := some Turn.Skip
        zobrist_hash := g.zobrist_hash ^^^ tbl.black_to_move }

/-- Specification-side notion for the one-hive invariant: the distinct
ground-layer (`h = 0`) occupied cells of a hive. -/
def groundCells (hive : Hive) : List Hex :=
  uniqueList ((hive.map.map Prod.fst).filter (fun k => decide (k.h = 0)))

/-- One round of the connectivity closure: add every cell adjacent to one
already reached. -/
def connClosureStep (cells reached : List Hex) : List Hex :=
  reached ++ cells.filter
    (fun c => decide (c ∉ reached) && reached.any (fun r => is_adjacent r c))

/-- Iterated connectivity closure. -/
def connClosure (cells : List Hex) : Nat → List Hex → List Hex
  | 0, reached => reached
  | n + 1, reached => connClosure cells n (connClosureStep cells reached)

/-- Specification-side predicate: the ground layer is connected under
6-neighbour adjacency (every ground cell is reached by the closure from
the first one; iterating as many rounds as there are cells reaches the
fixpoint). -/
def groundConnected (hive : Hive) : Bool :=
  match groundCells hive with
  | [] => true
  | c :: _ =>
    (groundCells hive).all fun x =>
      decide (x ∈ connClosure (groundCells hive) (groundCells hive).length [c])

/-- `DEFAULT_RESERVE` from `engine/game.rs`: the fourteen bugs each player
starts with. -/
def default_reserve : List Bug :=
  [Bug.Queen, Bug.Ant, Bug.Ant, Bug.Ant, Bug.Beetle, Bug.Beetle, Bug.Grasshopper,
   Bug.Grasshopper, Bug.Grasshopper, Bug.Spider, Bug.Spider, Bug.Ladybug, Bug.Mosquito,
   Bug.Pillbug]

/-- A degenerate Zobrist table (all piece words 0, side-to-move word 1),
used to instantiate table-parametric theorems on concrete states. -/
def tblZero : ZobristTable := ⟨fun _ _ _ _ => 0, 1⟩

/-- The board of the engine's own `test_grasshopper_does_not_break_hive`
fixture: a black ant, a white grasshopper and a white queen in a vertical
line (axial `(1,0)`, `(1,1)`, `(1,2)`). -/
def gameGrassLine : Game :=
  { hive := ⟨[(⟨1, 0, 0⟩, ⟨Bug.Ant, Color.Black⟩),
              (⟨1, 1, 0⟩, ⟨Bug.Grasshopper, Color.White⟩),
              (⟨1, 2, 0⟩, ⟨Bug.Queen, Color.White⟩)]⟩
    white_reserve := []
    black_reserve := []
    active_player := Color.White
    immobilized_piece := none
    last_turn := none
    zobrist_hash := 0 }

/-- Two adjacent stacks of height two. -/
def hiveTwoStacks : Hive :=
  ⟨[(⟨0, 0, 0⟩, ⟨Bug.Ant, Color.Black⟩), (⟨0, 0, 1⟩, ⟨Bug.Beetle, Color.Black⟩),
    (⟨1, 0, 0⟩, ⟨Bug.Ant, Color.Black⟩), (⟨1, 0, 1⟩, ⟨Bug.Beetle, Color.White⟩)]⟩

/-- A white pillbug next to a black ant, with the pillbug itself marked as
the immobilized piece. -/
def gamePillFrozen : Game :=
  { hive := ⟨[(⟨0, 0, 0⟩, ⟨Bug.Pillbug, Color.White⟩), (⟨1, 0, 0⟩, ⟨Bug.Ant, Color.Black⟩)]⟩
    white_reserve := []
    black_reserve := []
    active_player := Color.White
    immobilized_piece := some ⟨0, 0, 0⟩
    last_turn := none
    zobrist_hash := 0 }

/-- A white mosquito on top of a white queen, with a black ant on the
ground next to the stack. -/
def gameMosqOnStackAnt : Game :=
  { hive := ⟨[(⟨0, 0, 0⟩, ⟨Bug.Queen, Color.White⟩),
              (⟨0, 0, 1⟩, ⟨Bug.Mosquito, Color.White⟩),
              (⟨1, 0, 0⟩, ⟨Bug.Ant, Color.Black⟩)]⟩
    white_reserve := []
    black_reserve := []
    active_player := Color.White
    immobilized_piece := none
    last_turn := none
    zobrist_hash := 0 }

/-- A white mosquito on top of a white queen, with a black beetle on the
ground next to the stack. -/
def gameMosqOnStackBeetle : Game :=
  { hive := ⟨[(⟨0, 0, 0⟩, ⟨Bug.Queen, Color.White⟩),
              (⟨0, 0, 1⟩, ⟨Bug.Mosquito, Color.White⟩),
              (⟨1, 0, 0⟩, ⟨Bug.Beetle, Color.Black⟩)]⟩
    white_reserve := []
    black_reserve := []
    active_player := Color.White
    immobilized_piece := none
    last_turn := none
    zobrist_hash := 0 }

/-- The initial game state of `Game::default()` (empty board, full
reserves, white to move, hash 0). -/
def gameInitial : Game :=
  { hive := ⟨[]⟩
    white_reserve := default_reserve
    black_reserve := default_reserve
    active_player := Color.White
    immobilized_piece := none
    last_turn := none
    zobrist_hash := 0 }

/-- The state reached from `gameInitial` by placing a white ant at the
origin, under `tblZero`. -/
def gameAfterFirstPlacement : Game :=
  { hive := ⟨[(⟨0, 0, 0⟩, ⟨Bug.Ant, Color.White⟩)]⟩
    white_reserve :=
      [Bug.Queen, Bug.Ant, Bug.Ant, Bug.Beetle, Bug.Beetle, Bug.Grasshopper,
       Bug.Grasshopper, Bug.Grasshopper, Bug.Spider, Bug.Spider, Bug.Ladybug, Bug.Mosquito,
       Bug.Pillbug]
    black_reserve := default_reserve
    active_player := Color.Black
    immobilized_piece := none
    last_turn := some (Turn.Placement ⟨0, 0, 0⟩ ⟨Bug.Ant, Color.White⟩)
    zobrist_hash := 1 }

/-- The state reached from `gameInitial` by a `Skip` under `tblZero`. -/
def gameAfterSkip : Game :=
  { hive := ⟨[]⟩
    white_reserve := default_reserve
    black_reserve := default_reserve
    active_player := Color.Black
    immobilized_piece := none
    last_turn := some Turn.Skip
    zobrist_hash := 1 }

/-- A two-tile board (a white ant and a black ant) where White still holds
a short reserve containing the queen. -/
def gameQueenDue : Game :=
  { hive := ⟨[(⟨0, 0, 0⟩, ⟨Bug.Ant, Color.White⟩), (⟨1, 0, 0⟩, ⟨Bug.Ant, Color.Black⟩)]⟩
    white_reserve := [Bug.Queen, Bug.Ant]
    black_reserve := [Bug.Queen]
    active_player := Color.White
    immobilized_piece := none
    last_turn := none
    zobrist_hash := 0 }

/-! General lemmas. -/

theorem xorLeftComm (a b c : Nat) : a ^^^ (b ^^^ c) = b ^^^ (a ^^^ c) := by
  rw [← Nat.xor_assoc, Nat.xor_comm a b, Nat.xor_assoc]

theorem tileIndex_lt_count (tile : Tile) : tileIndex tile < TILE_INDEX_COUNT := by
  obtain ⟨b, c⟩ := tile
  cases b <;> cases c <;> decide

/-! Claim C8. -/

/-- C8: the claim that `ZobristTable::table_value` indexes in bounds for
every coordinate of magnitude at most 21, and out of bounds only outside
`[-21, 21]`, fails on the code: `AXIS_ARRAY_SIZE` is `MAX − MIN = 42`
instead of 43, so `q = 21` (magnitude 21) maps to index 42, which is out
of bounds, while `q = -22` (outside the interval) maps to index 22, which
is in bounds. -/
theorem C8_zobrist_axis_off_by_one :
    axisIndex 21 = AXIS_ARRAY_SIZE ∧
    ¬ axisIndex 21 < AXIS_ARRAY_SIZE ∧
    (21 : Int).natAbs ≤ 21 ∧
    tableIndexOk ⟨21, 0, 0⟩ = false ∧
    ¬ (-22 : Int).natAbs ≤ 21 ∧
    tableIndexOk ⟨-22, 0, 0⟩ = true := by decide

/-! Claim C6. -/

/-- C6: `slide_is_allowed(from, to)` returns true iff at least one of the
two shoulder cells `from + (−s(Δ), −Δ.q, 0)` and `from + (−Δ.r, −s(Δ), 0)`
(`Δ = to − from`) is unoccupied; the shoulder vectors have height
component 0, so both cells sit at the common height of `from` and `to`. -/
theorem C6_slide_shoulder_rule (g : Game) (fromHex toHex : Hex)
    (_hadj : is_adjacent fromHex toHex = true) (_hh : fromHex.h = toHex.h) :
    (g.slide_is_allowed fromHex toHex = true ↔
      g.hive.is_occupied
          (fromHex.add ⟨-(toHex.sub fromHex).s, -(toHex.sub fromHex).q, 0⟩) = false ∨
      g.hive.is_occupied
          (fromHex.add ⟨-(toHex.sub fromHex).r, -(toHex.sub fromHex).s, 0⟩) = false) := by
  simp only [Game.slide_is_allowed, Bool.or_eq_true, Bool.not_eq_true']
  exact or_comm

/-- Witness for C6 at the board `gameQueenDue`, sliding from the white
ant's cell to an adjacent free cell. -/
theorem C6_slide_shoulder_rule_witness :
    gameQueenDue.slide_is_allowed ⟨0, 0, 0⟩ ⟨0, 1, 0⟩ = true ↔
      gameQueenDue.hive.is_occupied
          ((⟨0, 0, 0⟩ : Hex).add
            ⟨-((⟨0, 1, 0⟩ : Hex).sub ⟨0, 0, 0⟩).s, -((⟨0, 1, 0⟩ : Hex).sub ⟨0, 0, 0⟩).q, 0⟩) =
        false ∨
      gameQueenDue.hive.is_occupied
          ((⟨0, 0, 0⟩ : Hex).add
            ⟨-((⟨0, 1, 0⟩ : Hex).sub ⟨0, 0, 0⟩).r, -((⟨0, 1, 0⟩ : Hex).sub ⟨0, 0, 0⟩).s, 0⟩) =
        false :=
  C6_slide_shoulder_rule gameQueenDue ⟨0, 0, 0⟩ ⟨0, 1, 0⟩ (by decide) (by decide)

/-! Claim C2. -/

/-- Counterexample to C2: in `gamePillFrozen` the immobilized piece is the
white pillbug's own hex, yet `pillbug_moves` still yields a throw
(`freezes_piece = true`).  The engine's own test
`test_pillbug_can_use_ability_when_frozen` pins this behaviour: only the
pillbug's direct movement is suppressed by immobilization. -/
theorem C2_frozen_pillbug_still_throws :
    gamePillFrozen.immobilized_piece = some ⟨0, 0, 0⟩ ∧
    gamePillFrozen.hive.tile_at ⟨0, 0, 0⟩ = some ⟨Bug.Pillbug, Color.White⟩ ∧
    Turn.Move ⟨1, 0, 0⟩ ⟨0, -1, 0⟩ true ∈ gamePillFrozen.pillbug_moves ⟨0, 0, 0⟩ := by decide

/-- C2 (amended): when `immobilized_piece` equals the pillbug's hex,
`pillbug_moves` produces no direct moves — every turn it yields is a
throw, i.e. a `Move` with `freezes_piece = true`. -/
theorem C2_immobilized_pillbug_only_throws (g : Game) (ph : Hex)
    (h : g.immobilized_piece = some ph) :
    ∀ t ∈ g.pillbug_moves ph, ∃ f d, t = Turn.Move f d true := by
  intro t ht
  simp only [Game.pillbug_moves, h, if_pos, List.nil_append, List.mem_flatMap] at ht
  obtain ⟨nb, _, ht⟩ := ht
  split at ht
  · exact absurd ht (List.not_mem_nil t)
  split at ht
  · exact absurd ht (List.not_mem_nil t)
  split at ht
  · exact absurd ht (List.not_mem_nil t)
  split at ht
  · exact absurd ht (List.not_mem_nil t)
  simp only [List.mem_filterMap] at ht
  obtain ⟨fs, _, heq⟩ := ht
  split at heq
  · exact absurd heq (Option.noConfusion)
  · exact ⟨nb, fs, (Option.some.inj heq).symm⟩

/-- Witness for the amended C2 at `gamePillFrozen`. -/
theorem C2_immobilized_pillbug_only_throws_witness :
    ∃ f d, Turn.Move ⟨1, 0, 0⟩ ⟨0, -1, 0⟩ true = Turn.Move f d true :=
  C2_immobilized_pillbug_only_throws gamePillFrozen ⟨0, 0, 0⟩ (by decide)
    (Turn.Move ⟨1, 0, 0⟩ ⟨0, -1, 0⟩ true) (by decide)

theorem mem_uniqueListAux {α : Type} [DecidableEq α] :
    ∀ (fuel : Nat) (l : List α), l.length ≤ fuel → ∀ a, (a ∈ uniqueListAux fuel l ↔ a ∈ l) := by
  intro fuel
  induction fuel with
  | zero =>
    intro l hl a
    rw [List.length_eq_zero.1 (Nat.le_zero.1 hl)]
    simp [uniqueListAux]
  | succ n ih =>
    intro l hl a
    cases l with
    | nil => simp [uniqueListAux]
    | cons b rest =>
      have hlen : (rest.filter (fun x => decide (x ≠ b))).length ≤ n :=
        le_trans (List.length_filter_le _ _) (Nat.lt_succ_iff.1 hl)
      simp only [uniqueListAux, List.mem_cons, ih _ hlen a, List.mem_filter, decide_eq_true_eq]
      by_cases hab : a = b
      · simp [hab]
      · simp [hab]

theorem mem_uniqueList {α : Type} [DecidableEq α] (l : List α) (a : α) :
    a ∈ uniqueList l ↔ a ∈ l :=
  mem_uniqueListAux l.length l le_rfl a

/-- C3 (amended): a mosquito that is the unimmobilized top tile of a stack
at `h > 0` produces exactly the beetle's turns, provided every
topmost-occupied neighbour (there being at least one) holds a beetle.  In
general `topmost_occupied_neighbors` also yields ground-level columns, so
a stacked mosquito copies whatever bug tops each adjacent column, not
only beetles — see `C3_stacked_mosquito_not_beetle`. -/
theorem C3_mosquito_on_stack_with_beetles (g : Game) (start : Hex)
    (him : g.immobilized_piece ≠ some start)
    (_hmos : (g.hive.tile_at start).map Tile.bug = some Bug.Mosquito)
    (_hh : 0 < start.h)
    (_htop : g.hive.stack_height start = start.h + 1)
    (hne : g.hive.topmost_occupied_neighbors start ≠ [])
    (hbee : ∀ hx ∈ g.hive.topmost_occupied_neighbors start,
      (g.hive.tile_at hx).map Tile.bug = some Bug.Beetle) :
    ∀ t, t ∈ g.mosquito_moves start ↔ t ∈ g.beetle_moves start := by
  intro t
  have him' : (decide (g.immobilized_piece = some start) : Bool) = false := by simp [him]
  simp only [Game.mosquito_moves, him', Bool.not_false, Bool.true_or, List.filter_true]
  rw [mem_uniqueList]
  simp only [List.mem_flatMap, List.mem_filter, List.mem_filterMap]
  constructor
  · rintro ⟨b, ⟨⟨hx, hhx, hfb⟩, hbm⟩, ht⟩
    have hb : b = Bug.Beetle := by
      have := hbee hx hhx
      rw [this] at hfb
      exact (Option.some.inj hfb).symm
    rw [hb] at ht
    exact ht
  · intro ht
    obtain ⟨hx, hhx⟩ := List.exists_mem_of_ne_nil _ hne
    exact ⟨Bug.Beetle, ⟨⟨hx, hhx, hbee hx hhx⟩, by decide⟩, ht⟩

/-- Witness for the amended C3 at `gameMosqOnStackBeetle`: the stacked
mosquito's step onto the black beetle agrees with the beetle dispatch. -/
theorem C3_mosquito_on_stack_with_beetles_witness :
    Turn.Move ⟨0, 0, 1⟩ ⟨1, 0, 1⟩ false ∈ gameMosqOnStackBeetle.mosquito_moves ⟨0, 0, 1⟩ ↔
      Turn.Move ⟨0, 0, 1⟩ ⟨1, 0, 1⟩ false ∈ gameMosqOnStackBeetle.beetle_moves ⟨0, 0, 1⟩ :=
  C3_mosquito_on_stack_with_beetles gameMosqOnStackBeetle ⟨0, 0, 1⟩ (by decide) (by decide)
    (by decide) (by decide) (by decide) (by decide) (Turn.Move ⟨0, 0, 1⟩ ⟨1, 0, 1⟩ false)

/-- Counterexample to C3 as stated: in `gameMosqOnStackAnt` the white
mosquito sits on top of a stack (`h = 1`) with a ground-level black ant in
an adjacent column; it copies the ant and produces a height-1 slide that
the beetle dispatch does not produce. -/
theorem C3_stacked_mosquito_not_beetle :
    (gameMosqOnStackAnt.hive.tile_at ⟨0, 0, 1⟩).map Tile.bug = some Bug.Mosquito ∧
    gameMosqOnStackAnt.hive.stack_height ⟨0, 0, 1⟩ = 2 ∧
    gameMosqOnStackAnt.immobilized_piece = none ∧
    Turn.Move ⟨0, 0, 1⟩ ⟨0, -1, 1⟩ false ∈ gameMosqOnStackAnt.mosquito_moves ⟨0, 0, 1⟩ ∧
    Turn.Move ⟨0, 0, 1⟩ ⟨0, -1, 1⟩ false ∉ gameMosqOnStackAnt.beetle_moves ⟨0, 0, 1⟩ := by
  decide

/-! Claim C1. -/

/-- C1 (code bug): in `gameGrassLine` — the exact board of the engine's
own `test_grasshopper_does_not_break_hive` fixture, which expects the
grasshopper to have no moves — `turns` yields the jump over the black ant,
and applying it disconnects the ground layer.  The `{h: 100, ..from}`
destination that `grasshopper_moves` passes to `move_would_break_hive`
makes every neighbour of `from` adjacent to the search target
`{h: 0, ..to} = from.base_level`, so the hive check always succeeds. -/
theorem C1_grasshopper_turn_breaks_hive :
    groundConnected gameGrassLine.hive = true ∧
    2 ≤ gameGrassLine.hive.map.length ∧
    Turn.Move ⟨1, 1, 0⟩ ⟨1, -1, 0⟩ false ∈ gameGrassLine.turns ∧
    (gameGrassLine.with_turn_applied tblZero (Turn.Move ⟨1, 1, 0⟩ ⟨1, -1, 0⟩ false)).map
        (fun g => (groundConnected g.hive, g.hive.map.length)) = some (false, 3) := by decide

/-! Claim C7, counterexample. -/

/-- Counterexample to C7 as stated: with two adjacent stacks of height
two, lifting the top tile of one stack towards a far-away destination is
reported as breaking the hive — `move_would_break_hive` has no early
`from.h > 0` exit, and the height-1 search from the neighbouring stack
top cannot reach the distant destination's ground cell. -/
theorem C7_counterexample_far_destination :
    0 < (⟨0, 0, 1⟩ : Hex).h ∧
    move_would_break_hive hiveTwoStacks ⟨0, 0, 1⟩ ⟨5, 5, 0⟩ = true := by decide

/-! Claim C9. -/

/-- C9: `with_turn_applied` leaves both reserves unchanged on `Move` and
`Skip` turns, and leaves the non-active player's reserve unchanged on
`Placement` turns. -/
theorem C9_reserves_frame (tbl : ZobristTable) (S : Game) (turn : Turn) (g : Game)
    (h : S.with_turn_applied tbl turn = some g) :
    (S.active_player = Color.White → g.black_reserve = S.black_reserve) ∧
    (S.active_player = Color.Black → g.white_reserve = S.white_reserve) ∧
    ((∀ hex tile, turn ≠ Turn.Placement hex tile) →
      g.white_reserve = S.white_reserve ∧ g.black_reserve = S.black_reserve) := by
  cases turn with
  | Placement hex tile =>
    simp only [Game.with_turn_applied] at h
    split at h
    · exact absurd h (Option.noConfusion)
    split at h
    · exact absurd h (Option.noConfusion)
    split at h
    · exact absurd h (Option.noConfusion)
    cases (Option.some.inj h)
    refine ⟨fun hw => ?_, fun hb => ?_, fun hnp => absurd rfl (hnp hex tile)⟩
    · simp [hw]
    · have : ¬ S.active_player = Color.White := by rw [hb]; intro hc; exact Color.noConfusion hc
      simp [this]
  | Move fromHex toHex freezes_piece =>
    simp only [Game.with_turn_applied] at h
    split at h
    · exact absurd h (Option.noConfusion)
    split at h
    · exact absurd h (Option.noConfusion)
    split at h
    · exact absurd h (Option.noConfusion)
    split at h
    · exact absurd h (Option.noConfusion)
    cases (Option.some.inj h)
    exact ⟨fun _ => rfl, fun _ => rfl, fun _ => ⟨rfl, rfl⟩⟩
  | Skip =>
    simp only [Game.with_turn_applied] at h
    cases (Option.some.inj h)
    exact ⟨fun _ => rfl, fun _ => rfl, fun _ => ⟨rfl, rfl⟩⟩

/-- Witness for C9: applying `Skip` to the initial state. -/
theorem C9_reserves_frame_witness :
    gameAfterSkip.white_reserve = gameInitial.white_reserve ∧
    gameAfterSkip.black_reserve = gameInitial.black_reserve :=
  (C9_reserves_frame tblZero gameInitial Turn.Skip gameAfterSkip (by decide)).2.2
    (fun _ _ => Turn.noConfusion)

/-! Claim C5. -/

/-- Every placement generated in the queen-mandate situation places the
queen. -/
theorem placements_queen_mandate (g : Game)
    (h2 : 2 ≤ g.hive.map.length)
    (h11 : g.active_reserve.length ≤ 11)
    (hq : Bug.Queen ∈ g.active_reserve) :
    ∀ t ∈ g.placements g.active_reserve,
      ∃ hex, t = Turn.Placement hex ⟨Bug.Queen, g.active_player⟩ := by
  intro t ht
  have hne : g.active_reserve.isEmpty = false := by
    cases hr : g.active_reserve with
    | nil => rw [hr] at hq; exact absurd hq (List.not_mem_nil _)
    | cons a l => simp
  have hmne : g.hive.map.isEmpty = false := by
    cases hm : g.hive.map with
    | nil => rw [hm] at h2; simp at h2
    | cons a l => simp
  have hm1 : ¬ g.hive.map.length = 1 := by omega
  simp only [Game.placements, hne, hmne, Bool.false_eq_true, if_false, hm1] at ht
  rw [if_pos ⟨by omega, hq⟩] at ht
  simp only [List.mem_flatMap] at ht
  obtain ⟨e, _, ht⟩ := ht
  split at ht
  · simp only [List.mem_flatMap] at ht
    obtain ⟨nb, _, ht⟩ := ht
    split at ht
    · simp only [List.mem_map, List.mem_singleton] at ht
      obtain ⟨bug, hbug, rfl⟩ := ht
      cases hbug
      exact ⟨nb, rfl⟩
    · exact absurd ht (List.not_mem_nil t)
  · exact absurd ht (List.not_mem_nil t)

/-- C5: when the hive has at least two tiles and the active reserve has at
most 11 bugs and still holds the queen, every `Placement` in `turns`
places the queen, and `turns` yields no `Move` turn. -/
theorem C5_queen_by_turn_four (g : Game)
    (h2 : 2 ≤ g.hive.map.length)
    (h11 : g.active_reserve.length ≤ 11)
    (hq : Bug.Queen ∈ g.active_reserve) :
    (∀ hex tile, Turn.Placement hex tile ∈ g.turns → tile.bug = Bug.Queen) ∧
    (∀ f d fz, Turn.Move f d fz ∉ g.turns) := by
  have hmoves : g.moves = [] := by
    simp only [Game.moves, if_pos hq]
  have hts : ∀ t ∈ g.placements g.active_reserve ++ g.moves,
      ∃ hex, t = Turn.Placement hex ⟨Bug.Queen, g.active_player⟩ := by
    intro t ht
    rw [hmoves, List.append_nil] at ht
    exact placements_queen_mandate g h2 h11 hq t ht
  constructor
  · intro hex tile ht
    simp only [Game.turns] at ht
    split at ht
    · simp only [List.mem_singleton] at ht
      exact absurd ht (by simp)
    · obtain ⟨hx, heq⟩ := hts _ ht
      cases heq
      rfl
  · intro f d fz ht
    simp only [Game.turns] at ht
    split at ht
    · simp only [List.mem_singleton] at ht
      exact absurd ht (by simp)
    · obtain ⟨hx, heq⟩ := hts _ ht
      exact Turn.noConfusion heq

/-- Witness for C5 at `gameQueenDue`: no move of the white ant appears. -/
theorem C5_queen_by_turn_four_witness :
    Turn.Move ⟨0, 0, 0⟩ ⟨1, 1, 0⟩ false ∉ gameQueenDue.turns :=
  (C5_queen_by_turn_four gameQueenDue (by decide) (by decide) (by decide)).2 _ _ _

/-! Claim C10. -/

theorem hex_add_sub_cancel (a b : Hex) : (a.add b).sub a = b := by
  cases a
  cases b
  simp only [Hex.add, Hex.sub, Hex.mk.injEq]
  omega

/-- A slide from `hex` in direction `d` is tested against the two shoulder
cells `hex + ⟨-d.r, -d.s, 0⟩` (clockwise) and `hex + ⟨-d.s, -d.q, 0⟩`
(counter-clockwise). -/
theorem slide_is_allowed_add (g : Game) (hex d : Hex) :
    g.slide_is_allowed hex (hex.add d) =
      (!g.hive.is_occupied (hex.add ⟨-d.r, -d.s, 0⟩) ||
        !g.hive.is_occupied (hex.add ⟨-d.s, -d.q, 0⟩)) := by
  simp only [Game.slide_is_allowed, hex_add_sub_cancel]

set_option maxHeartbeats 4000000 in
/-- C10: a cell is produced by the ring-scan enumerator
`allowed_slides(hex, None)` iff it is an unoccupied same-level neighbour
of `hex` whose slide from `hex` passes the pairwise shoulder rule
`slide_is_allowed`. -/
theorem C10_allowed_slides_matches_shoulder_rule (g : Game) (hex : Hex) (x : Hex) :
    x ∈ g.allowed_slides hex none ↔
      x ∈ (g.hive.neighbors_at_same_level hex).filter
        (fun n => !g.hive.is_occupied n && g.slide_is_allowed hex n) := by
  have k0 := slide_is_allowed_add g hex ⟨0, -1, 0⟩
  have k1 := slide_is_allowed_add g hex ⟨1, -1, 0⟩
  have k2 := slide_is_allowed_add g hex ⟨1, 0, 0⟩
  have k3 := slide_is_allowed_add g hex ⟨0, 1, 0⟩
  have k4 := slide_is_allowed_add g hex ⟨-1, 1, 0⟩
  have k5 := slide_is_allowed_add g hex ⟨-1, 0, 0⟩
  norm_num [Hex.s] at k0 k1 k2 k3 k4 k5
  simp only [Game.allowed_slides, Hive.neighbors_at_same_level, neighbors, directionVectors,
    List.map_cons, List.map_nil, List.filter_cons, List.filter_nil]
  obtain ⟨b0, h0⟩ : ∃ b, g.hive.is_occupied (hex.add ⟨0, -1, 0⟩) = b := ⟨_, rfl⟩
  obtain ⟨b1, h1⟩ : ∃ b, g.hive.is_occupied (hex.add ⟨1, -1, 0⟩) = b := ⟨_, rfl⟩
  obtain ⟨b2, h2⟩ : ∃ b, g.hive.is_occupied (hex.add ⟨1, 0, 0⟩) = b := ⟨_, rfl⟩
  obtain ⟨b3, h3⟩ : ∃ b, g.hive.is_occupied (hex.add ⟨0, 1, 0⟩) = b := ⟨_, rfl⟩
  obtain ⟨b4, h4⟩ : ∃ b, g.hive.is_occupied (hex.add ⟨-1, 1, 0⟩) = b := ⟨_, rfl⟩
  obtain ⟨b5, h5⟩ : ∃ b, g.hive.is_occupied (hex.add ⟨-1, 0, 0⟩) = b := ⟨_, rfl⟩
  cases b0 <;> cases b1 <;> cases b2 <;> cases b3 <;> cases b4 <;> cases b5 <;>
    · simp only [ringStep, k0, k1, k2, k3, k4, k5, h0, h1, h2, h3, h4, h5, Bool.true_and,
        Bool.false_and, Bool.and_true, Bool.and_false, Bool.not_true, Bool.not_false,
        Bool.true_or, Bool.false_or, Bool.or_true, Bool.or_false, decide_not, ne_eq,
        Option.some_ne_none, not_false_iff, decide_True, if_true, if_false]
      simp
      try tauto

/-! Claim C7, amended theorem: a search-invariant proof that the best-first
search of `move_would_disconnect_piece` always succeeds when `fromHex` is an
occupied elevated cell and the destination is adjacent to it. -/

theorem hex_add_right_inj (hex : Hex) : Function.Injective (fun d => hex.add d) := by
  intro d1 d2 h
  obtain ⟨q1, r1, h1⟩ := d1
  obtain ⟨q2, r2, h2⟩ := d2
  simp only [Hex.add, Hex.mk.injEq] at h
  simp only [Hex.mk.injEq]
  omega

theorem directionVectors_nodup : directionVectors.Nodup := by decide

theorem neighbors_nodup (hex : Hex) : (neighbors hex).Nodup :=
  List.Nodup.map (hex_add_right_inj hex) directionVectors_nodup

theorem mem_neighbors_symm {a b : Hex} (h : a ∈ neighbors b) : b ∈ neighbors a := by
  simp only [neighbors, directionVectors, List.map_cons, List.map_nil, List.mem_cons,
    List.not_mem_nil, or_false] at h ⊢
  obtain ⟨aq, ar, ah⟩ := a
  obtain ⟨bq, br, bh⟩ := b
  simp only [Hex.add, Hex.mk.injEq] at h ⊢
  rcases h with h | h | h | h | h | h <;> omega

theorem mem_neighbors_ne {a b : Hex} (h : a ∈ neighbors b) : a ≠ b := by
  simp only [neighbors, directionVectors, List.map_cons, List.map_nil, List.mem_cons,
    List.not_mem_nil, or_false] at h
  obtain ⟨aq, ar, ah⟩ := a
  obtain ⟨bq, br, bh⟩ := b
  simp only [Hex.add, Hex.mk.injEq] at h
  intro heq
  cases heq
  omega

theorem is_adjacent_base_level (a b : Hex) : is_adjacent a b.base_level = is_adjacent a b :=
  rfl

theorem mem_keys_of_occupied (hive : Hive) (x : Hex) (h : hive.is_occupied x = true) :
    x ∈ hive.map.map Prod.fst := by
  simp only [Hive.is_occupied, List.any_eq_true, decide_eq_true_eq] at h
  obtain ⟨e, he, heq⟩ := h
  exact List.mem_map.2 ⟨e, he, heq⟩

theorem length_le_of_nodup_subset (seen keys : List Hex) (hnd : seen.Nodup)
    (hsub : ∀ s ∈ seen, s ∈ keys) : seen.length ≤ keys.length := by
  calc seen.length = seen.toFinset.card := (List.toFinset_card_of_nodup hnd).symm
    _ ≤ keys.toFinset.card := by
        apply Finset.card_le_card
        intro a ha
        rw [List.mem_toFinset] at ha ⊢
        exact hsub a ha
    _ ≤ keys.length := List.toFinset_card_le keys

theorem popMin_nil_iff : ∀ (l : List (Hex × Nat)), popMin l = none ↔ l = [] := by
  intro l
  cases l with
  | nil => simp [popMin]
  | cons a as =>
    simp only [popMin]
    cases popMin as with
    | none => simp
    | some yr =>
      by_cases h : a.2 ≤ yr.1.2 <;> simp [h]

theorem popMin_perm :
    ∀ (l : List (Hex × Nat)) (x : Hex × Nat) (rest : List (Hex × Nat)),
      popMin l = some (x, rest) → l.Perm (x :: rest) := by
  intro l
  induction l with
  | nil => intro x rest h; exact absurd h (by simp [popMin])
  | cons a as ih =>
    intro x rest h
    cases hp : popMin as with
    | none =>
      have hres : popMin (a :: as) = some (a, []) := by simp [popMin, hp]
      rw [hres] at h
      injection (Option.some.inj h) with h1 h2
      subst h1
      subst h2
      have hase : as = [] := (popMin_nil_iff as).1 hp
      subst hase
      exact List.Perm.refl _
    | some yr =>
      obtain ⟨y, r⟩ := yr
      by_cases hle : a.2 ≤ y.2
      · have hres : popMin (a :: as) = some (a, as) := by simp [popMin, hp, hle]
        rw [hres] at h
        injection (Option.some.inj h) with h1 h2
        subst h1
        subst h2
        exact List.Perm.refl _
      · have hres : popMin (a :: as) = some (y, a :: r) := by simp [popMin, hp, hle]
        rw [hres] at h
        injection (Option.some.inj h) with h1 h2
        subst h1
        subst h2
        exact List.Perm.trans ((ih y r hp).cons a) (List.Perm.swap y a r)

theorem searchLoop_reaches_hit (hive : Hive) (endHex : Hex) (avoid : Option Hex)
    (conn : List Hex) :
    ∀ (fuel : Nat) (frontier : List (Hex × Nat)) (seen : List Hex),
      seen.Nodup →
      (∀ s ∈ seen, hive.is_occupied s = true) →
      (∃ p ∈ frontier, searchHit endHex conn p.1 = true) →
      frontier.length + hive.map.length < fuel + seen.length →
      (searchLoop hive endHex avoid conn fuel frontier seen).1 = false := by
  intro fuel
  induction fuel with
  | zero =>
    intro frontier seen hnd hocc hhit hlt
    obtain ⟨p, hp, _⟩ := hhit
    have h1 : 0 < frontier.length := List.length_pos.2 (List.ne_nil_of_mem hp)
    have h2 : seen.length ≤ (hive.map.map Prod.fst).length :=
      length_le_of_nodup_subset seen (hive.map.map Prod.fst) hnd
        (fun s hs => mem_keys_of_occupied hive s (hocc s hs))
    rw [List.length_map] at h2
    omega
  | succ n ih =>
    intro frontier seen hnd hocc hhit hlt
    obtain ⟨p, hp, hp1⟩ := hhit
    obtain ⟨xr, hpop⟩ :=
      Option.ne_none_iff_exists'.1 (fun hc => (List.ne_nil_of_mem hp) ((popMin_nil_iff _).1 hc))
    obtain ⟨x, rest⟩ := xr
    have hperm := popMin_perm frontier x rest hpop
    simp only [searchLoop, hpop]
    by_cases hx : searchHit endHex conn x.1 = true
    · simp [hx]
    · rw [if_neg hx]
      have hpr : p ∈ rest := by
        rcases (List.mem_cons).1 (hperm.mem_iff.1 hp) with hpx | hpr
        · rw [hpx] at hp1; exact absurd hp1 hx
        · exact hpr
      apply ih
      · refine (List.nodup_append).2 ⟨hnd, ?_, ?_⟩
        · exact List.Nodup.filter _
            (List.Nodup.filter _ (neighbors_nodup x.1))
        · intro a ha hcontra
          have := (List.mem_filter.1 hcontra).2
          simp only [Bool.and_eq_true, decide_eq_true_eq] at this
          exact this.2 ha
      · intro s hs
        rcases (List.mem_append).1 hs with hs1 | hs2
        · exact hocc s hs1
        · exact (List.mem_filter.1 ((List.mem_filter.1 hs2).1)).2
      · refine ⟨p, ?_, hp1⟩
        exact (List.mem_append).2 (Or.inl hpr)
      · have hflen : frontier.length = rest.length + 1 := by
          have := hperm.length_eq
          simpa using this
        rw [List.length_append, List.length_append, List.length_map]
        omega

theorem disconnect_false_of_adjacent (hive : Hive) (fromHex toHex affected : Hex)
    (conn : List Hex)
    (hh : fromHex.h ≠ 0)
    (hoccFrom : hive.is_occupied fromHex = true)
    (hadj : is_adjacent fromHex toHex = true)
    (haffN : affected ∈ neighbors fromHex)
    (haffO : hive.is_occupied affected = true) :
    (move_would_disconnect_piece hive fromHex toHex affected conn).1 = false := by
  have key : (searchLoop hive toHex.base_level none conn (hive.map.length + 1)
      [(affected, 0)] [affected]).1 = false := by
    simp only [searchLoop, popMin]
    by_cases hhit : searchHit toHex.base_level conn affected = true
    · simp [hhit]
    · rw [if_neg hhit]
      apply searchLoop_reaches_hit
      · refine (List.nodup_cons).2 ⟨?_, ?_⟩
        · intro hc
          have := (List.mem_filter.1 hc).2
          simp only [Bool.and_eq_true, decide_eq_true_eq] at this
          exact this.2 (List.mem_singleton.2 rfl)
        · exact List.Nodup.filter _ (List.Nodup.filter _ (neighbors_nodup affected))
      · intro s hs
        rcases (List.mem_cons).1 hs with hs1 | hs2
        · rw [hs1]; exact haffO
        · exact (List.mem_filter.1 ((List.mem_filter.1 hs2).1)).2
      · refine ⟨(fromHex, flat_distance fromHex toHex.base_level), ?_, ?_⟩
        · rw [List.nil_append]
          apply List.mem_map.2
          refine ⟨fromHex, ?_, rfl⟩
          apply List.mem_filter.2
          refine ⟨List.mem_filter.2 ⟨mem_neighbors_symm haffN, hoccFrom⟩, ?_⟩
          simp only [Bool.and_eq_true, decide_eq_true_eq]
          exact ⟨fun hc => Option.noConfusion hc,
            fun hc => (mem_neighbors_ne haffN) ((List.mem_singleton.1 hc) ▸ rfl)⟩
        · simp [searchHit, is_adjacent_base_level, hadj]
      · simp only [List.nil_append, List.length_map, List.length_append, List.length_cons,
          List.length_nil]
        omega
  simp only [move_would_disconnect_piece, haffO, not_true, Bool.true_eq_false, if_false,
    if_neg hh]
  rcases hsl : searchLoop hive toHex.base_level none conn (hive.map.length + 1)
      [(affected, 0)] [affected] with ⟨b, seenF⟩
  rw [hsl] at key
  simp only at key
  rw [key]

theorem breakHiveLoop_false (hive : Hive) (fromHex toHex : Hex)
    (hh : fromHex.h ≠ 0)
    (hoccFrom : hive.is_occupied fromHex = true)
    (hadj : is_adjacent fromHex toHex = true) :
    ∀ (ns : List Hex) (conn : List Hex),
      (∀ n ∈ ns, n ∈ neighbors fromHex ∧ hive.is_occupied n = true) →
      breakHiveLoop hive fromHex toHex ns conn = false := by
  intro ns
  induction ns with
  | nil => intro conn _; rfl
  | cons a rest ih =>
    intro conn hns
    have hd := disconnect_false_of_adjacent hive fromHex toHex a conn hh hoccFrom hadj
      (hns a (List.mem_cons_self a rest)).1 (hns a (List.mem_cons_self a rest)).2
    rcases hmd : move_would_disconnect_piece hive fromHex toHex a conn with ⟨b, conn2⟩
    rw [hmd] at hd
    simp only at hd
    subst hd
    simp only [breakHiveLoop, hmd]
    exact ih conn2 (fun n hn => hns n (List.mem_cons_of_mem a hn))

/-- C7 (amended): for an occupied `fromHex` with `from.h > 0` and any
destination adjacent to it — the shape of every beetle (and stacked
mosquito) move the engine generates — `move_would_break_hive` returns
false: each sibling search starts at an occupied same-level neighbour of
`fromHex`, immediately enqueues `fromHex` itself (nothing is avoided when
`from.h ≠ 0`), and `fromHex` is adjacent to the destination's ground
cell, so every search succeeds.  Without the adjacency hypothesis the
claim fails, see `C7_counterexample_far_destination`. -/
theorem C7_beetle_lift_never_breaks (hive : Hive) (fromHex toHex : Hex)
    (hh : 0 < fromHex.h)
    (hocc : hive.is_occupied fromHex = true)
    (hadj : is_adjacent fromHex toHex = true) :
    move_would_break_hive hive fromHex toHex = false := by
  have hh0 : fromHex.h ≠ 0 := by omega
  simp only [move_would_break_hive]
  rw [if_neg (fun hc => hh0 hc.1.1)]
  apply breakHiveLoop_false hive fromHex toHex hh0 hocc hadj
  intro n hn
  exact ⟨(List.mem_filter.1 hn).1, (List.mem_filter.1 hn).2⟩

/-- Witness for the amended C7: lifting the white beetle off `hiveTwoStacks`
towards the adjacent column. -/
theorem C7_beetle_lift_never_breaks_witness :
    move_would_break_hive hiveTwoStacks ⟨0, 0, 1⟩ ⟨1, 0, 2⟩ = false :=
  C7_beetle_lift_never_breaks hiveTwoStacks ⟨0, 0, 1⟩ ⟨1, 0, 2⟩ (by decide) (by decide)
    (by decide)

/-! Claim C4. -/

theorem foldl_xor_eq (f : Hex × Tile → Nat) :
    ∀ (l : List (Hex × Tile)) (init : Nat),
      l.foldl (fun a e => a ^^^ f e) init = init ^^^ l.foldl (fun a e => a ^^^ f e) 0 := by
  intro l
  induction l with
  | nil => intro init; simp
  | cons e rest ih =>
    intro init
    simp only [List.foldl_cons]
    rw [ih (init ^^^ f e), ih (0 ^^^ f e), Nat.zero_xor, Nat.xor_assoc]

theorem xorCancelLeft (a b : Nat) : a ^^^ (a ^^^ b) = b := by
  rw [← Nat.xor_assoc, Nat.xor_self, Nat.zero_xor]

theorem foldl_xor_remove (f : Hex × Tile → Nat) :
    ∀ (l : List (Hex × Tile)) (k : Hex) (tile : Tile),
      (l.map Prod.fst).Nodup →
      (l.find? (fun e => decide (e.1 = k))).map Prod.snd = some tile →
      l.foldl (fun a e => a ^^^ f e) 0 =
        f (k, tile) ^^^
          (l.filter (fun e => decide (e.1 ≠ k))).foldl (fun a e => a ^^^ f e) 0 := by
  intro l
  induction l with
  | nil => intro k tile _ hfind; exact absurd hfind (by simp)
  | cons e rest ih =>
    intro k tile hnd hfind
    rw [List.map_cons, List.nodup_cons] at hnd
    by_cases hek : e.1 = k
    · rw [List.find?_cons_of_pos _ (by simpa using hek)] at hfind
      simp only [Option.map_some'] at hfind
      have he : e = (k, tile) := by
        obtain ⟨e1, e2⟩ := e
        simp_all
      have hrest : rest.filter (fun e => decide (e.1 ≠ k)) = rest := by
        apply List.filter_eq_self.2
        intro a ha
        have hm : a.1 ∈ rest.map Prod.fst := List.mem_map_of_mem _ ha
        have : a.1 ≠ k := fun hc => hnd.1 (by rw [← hc] at hek; rw [← hek] at hm; exact hm)
        simpa using this
      rw [List.filter_cons_of_neg (by simpa using hek), hrest, List.foldl_cons,
        foldl_xor_eq, Nat.zero_xor, he]
    · rw [List.find?_cons_of_neg _ (by simpa using hek)] at hfind
      rw [List.filter_cons_of_pos (by simpa using hek), List.foldl_cons, List.foldl_cons,
        foldl_xor_eq, Nat.zero_xor, ih k tile hnd.2 hfind,
        foldl_xor_eq f (rest.filter fun e => decide (e.1 ≠ k)) (f e), xorLeftComm]

theorem insert_fresh (hive : Hive) (hex : Hex) (tile : Tile)
    (h : hive.is_occupied hex = false) :
    (hive.insert hex tile).map = (hex, tile) :: hive.map := by
  simp only [Hive.insert, h, Bool.false_eq_true, if_false]

theorem is_occupied_removeKey_of_not (hive : Hive) (k hex : Hex)
    (h : hive.is_occupied hex = false) :
    (hive.removeKey k).is_occupied hex = false := by
  simp only [Hive.is_occupied, Hive.removeKey, List.any_filter, List.any_eq_false] at h ⊢
  intro e he
  simpa using fun _ => by simpa using h e he

theorem hash_init_opposite (tbl : ZobristTable) (active : Color) :
    (if active.opposite = Color.Black then tbl.black_to_move else 0) =
      (if active = Color.Black then tbl.black_to_move else 0) ^^^ tbl.black_to_move := by
  cases active <;> simp [Color.opposite, Nat.xor_self, Nat.zero_xor]

theorem hash_opposite (tbl : ZobristTable) (hive : Hive) (active : Color) :
    tbl.hash hive active.opposite = tbl.hash hive active ^^^ tbl.black_to_move := by
  simp only [ZobristTable.hash]
  rw [foldl_xor_eq (fun e => tbl.table_value e.1 e.2) hive.map
      (if active.opposite = Color.Black then tbl.black_to_move else 0),
    foldl_xor_eq (fun e => tbl.table_value e.1 e.2) hive.map
      (if active = Color.Black then tbl.black_to_move else 0),
    hash_init_opposite]
  simp only [Nat.xor_assoc, Nat.xor_comm, xorLeftComm, xorCancelLeft]

theorem hash_insert_fresh (tbl : ZobristTable) (hive : Hive) (hex : Hex) (tile : Tile)
    (active : Color) (h : hive.is_occupied hex = false) :
    tbl.hash (hive.insert hex tile) active =
      tbl.hash hive active ^^^ tbl.table_value hex tile := by
  simp only [ZobristTable.hash, insert_fresh hive hex tile h, List.foldl_cons]
  rw [foldl_xor_eq (fun e => tbl.table_value e.1 e.2) hive.map
      ((if active = Color.Black then tbl.black_to_move else 0) ^^^ tbl.table_value hex tile),
    foldl_xor_eq (fun e => tbl.table_value e.1 e.2) hive.map
      (if active = Color.Black then tbl.black_to_move else 0)]
  simp only [Nat.xor_assoc, Nat.xor_comm, xorLeftComm, xorCancelLeft]

theorem hash_removeKey (tbl : ZobristTable) (hive : Hive) (k : Hex) (tile : Tile)
    (active : Color) (hwf : hive.wf) (hfind : hive.tile_at k = some tile) :
    tbl.hash (hive.removeKey k) active = tbl.hash hive active ^^^ tbl.table_value k tile := by
  simp only [ZobristTable.hash, Hive.removeKey]
  rw [foldl_xor_eq (fun e => tbl.table_value e.1 e.2)
      (hive.map.filter (fun e => decide (e.1 ≠ k)))
      (if active = Color.Black then tbl.black_to_move else 0),
    foldl_xor_eq (fun e => tbl.table_value e.1 e.2) hive.map
      (if active = Color.Black then tbl.black_to_move else 0),
    foldl_xor_remove (fun e => tbl.table_value e.1 e.2) hive.map k tile hwf
      (by simpa [Hive.tile_at] using hfind)]
  simp only [Nat.xor_assoc, Nat.xor_comm, xorLeftComm, xorCancelLeft]

/-- C4: for a well-formed state whose stored hash agrees with the
from-scratch `ZobristTable::hash`, applying any turn yielded by `turns`
produces a state whose incrementally-updated `zobrist_hash` again equals
the from-scratch hash of the new hive and new active player. -/
theorem C4_zobrist_incremental (tbl : ZobristTable) (S : Game) (turn : Turn) (g : Game)
    (hwf : S.hive.wf)
    (hzh : S.zobrist_hash = tbl.hash S.hive S.active_player)
    (_hmem : turn ∈ S.turns)
    (happ : S.with_turn_applied tbl turn = some g) :
    g.zobrist_hash = tbl.hash g.hive g.active_player := by
  cases turn with
  | Placement hex tile =>
    simp only [Game.with_turn_applied] at happ
    split at happ
    · exact absurd happ (Option.noConfusion)
    split at happ
    · exact absurd happ (Option.noConfusion)
    split at happ
    · exact absurd happ (Option.noConfusion)
    case _ _ _ hocc =>
    cases (Option.some.inj happ)
    have hocc' : S.hive.is_occupied hex = false := by
      simpa using hocc
    rw [hash_opposite, hash_insert_fresh tbl S.hive hex tile S.active_player hocc', hzh]
  | Move fromHex toHex freezes_piece =>
    simp only [Game.with_turn_applied] at happ
    split at happ
    · exact absurd happ (Option.noConfusion)
    case _ hoccFrom =>
    split at happ
    · exact absurd happ (Option.noConfusion)
    case _ hoccTo =>
    split at happ
    · exact absurd happ (Option.noConfusion)
    case _ tile hfind =>
    split at happ
    · exact absurd happ (Option.noConfusion)
    cases (Option.some.inj happ)
    have hoccTo' : S.hive.is_occupied toHex = false := by
      simpa using hoccTo
    have hfresh : (S.hive.removeKey fromHex).is_occupied toHex = false :=
      is_occupied_removeKey_of_not S.hive fromHex toHex hoccTo'
    rw [hash_opposite, hash_insert_fresh tbl _ toHex tile S.active_player hfresh,
      hash_removeKey tbl S.hive fromHex tile S.active_player hwf hfind, hzh]
  | Skip =>
    simp only [Game.with_turn_applied] at happ
    cases (Option.some.inj happ)
    rw [hash_opposite, hzh]

/-- Witness for C4: the first placement from the initial state under
`tblZero`. -/
theorem C4_zobrist_incremental_witness :
    gameInitial.with_turn_applied tblZero
        (Turn.Placement ⟨0, 0, 0⟩ ⟨Bug.Ant, Color.White⟩) = some gameAfterFirstPlacement ∧
    gameAfterFirstPlacement.zobrist_hash =
      tblZero.hash gameAfterFirstPlacement.hive gameAfterFirstPlacement.active_player :=
  ⟨by decide,
    C4_zobrist_incremental tblZero gameInitial
      (Turn.Placement ⟨0, 0, 0⟩ ⟨Bug.Ant, Color.White⟩) gameAfterFirstPlacement
      (by simp [Hive.wf, gameInitial]) (by decide) (by decide) (by decide)⟩

end Chive
